import Mathlib

/-!
Verification of the promptkeep CLI against its natural-language
specification.  The Python source (promptkeep/cli.py, promptkeep/utils.py)
is shallowly embedded: strings are `List Char`, the filesystem and the
external editor/chooser are explicit parameters, and every Python string
primitive used by the code (strip, split, splitlines, startswith, ...) is
modelled by an executable Lean function with the same semantics on the
inputs the code feeds it.
-/

namespace Promptkeep

/-- Strings are modelled as lists of characters. -/
abbrev Str := List Char

/-- Python `str.isspace` on the ASCII whitespace characters used by
`str.strip()` with no arguments. -/
def pyIsSpace (c : Char) : Bool :=
  c = ' ' || c = '\t' || c = '\n' || c = '\r' || c = Char.ofNat 11 || c = Char.ofNat 12

/-- Drop the maximal suffix of characters satisfying `p`
(the trailing half of Python `strip`). -/
def dropTrailingWhile (p : Char → Bool) : Str → Str
  | [] => []
  | c :: r =>
    match dropTrailingWhile p r with
    | [] => if p c then [] else [c]
    | d :: t => c :: d :: t

/-- Python `s.strip()`: remove leading and trailing whitespace. -/
def pyStrip (s : Str) : Str :=
  dropTrailingWhile pyIsSpace (s.dropWhile pyIsSpace)

/-- Python `s.strip(chars)`: remove all leading and trailing characters
that belong to `cs`. -/
def pyStripChars (cs : Str) (s : Str) : Str :=
  dropTrailingWhile (fun c => cs.contains c) (s.dropWhile (fun c => cs.contains c))

/-- Line-break characters recognised by Python `str.splitlines` (the
ASCII/latin ones; the documents in this repository only ever contain
`\n`). -/
def isLineBreak (c : Char) : Bool :=
  c = '\n' || c = '\r' || c = Char.ofNat 11 || c = Char.ofNat 12 ||
  c = Char.ofNat 28 || c = Char.ofNat 29 || c = Char.ofNat 30 || c = Char.ofNat 133

/-- Worker for `pySplitlines`; `acc` is the current line, reversed. -/
def splitlinesAux (acc : Str) : Str → List Str
  | [] => if acc = [] then [] else [acc.reverse]
  | '\r' :: '\n' :: r => acc.reverse :: splitlinesAux [] r
  | c :: r =>
    if isLineBreak c then acc.reverse :: splitlinesAux [] r
    else splitlinesAux (c :: acc) r

/-- Python `s.splitlines()`. -/
def pySplitlines (s : Str) : List Str :=
  splitlinesAux [] s

/-- Split at the first occurrence of `sep` (a nonempty separator):
`some (before, after)` if `sep` occurs, `none` otherwise.  This is the
single step of Python `str.split(sep, maxsplit)`. -/
def pySplitOnce (sep : Str) : Str → Option (Str × Str)
  | [] => if sep = [] then some ([], []) else none
  | c :: r =>
    if sep.isPrefixOf (c :: r) then some ([], (c :: r).drop sep.length)
    else
      match pySplitOnce sep r with
      | none => none
      | some (a, b) => some (c :: a, b)

/-- Python `s.split(sep, 2)`: at most three parts. -/
def pySplit2 (sep : Str) (s : Str) : List Str :=
  match pySplitOnce sep s with
  | none => [s]
  | some (a, r) =>
    match pySplitOnce sep r with
    | none => [a, r]
    | some (b, r2) => [a, b, r2]

/-- Python `s.split(sep)` for a single-character separator (used for
`tags_str.split(",")`). -/
def pySplitChar (sep : Char) : Str → List Str
  | [] => [[]]
  | c :: r =>
    if c = sep then [] :: pySplitChar sep r
    else
      match pySplitChar sep r with
      | [] => [[c]]
      | a :: rest => (c :: a) :: rest

/-- `utils.extract_prompt_content`: split the content on `"---"` with
maxsplit 2; if three parts result return the third stripped, otherwise
return the whole content stripped. -/
def extract_prompt_content (content : Str) : Str :=
  let parts := pySplit2 ("---".toList) content
  if parts.length = 3 then pyStrip (parts.getD 2 []) else pyStrip content

/-- ASCII lowercasing, the case Python `str.lower` performs on the
characters appearing in this repository's inputs. -/
def asciiLower (c : Char) : Char :=
  if 'A' ≤ c ∧ c ≤ 'Z' then Char.ofNat (c.toNat + 32) else c

/-- The characters replaced by `re.sub(r'[<>:"/\\|?*]', '-', title)` in
`utils.sanitize_filename`. -/
def isInvalidChar (c : Char) : Bool :=
  c = '<' || c = '>' || c = ':' || c = '"' || c = '/' || c = '\\' ||
  c = '|' || c = '?' || c = '*'

/-- `re.sub(r'-+', '-', s)`: collapse every run of hyphens to one. -/
def collapseHyphens : Str → Str
  | [] => []
  | [c] => [c]
  | a :: b :: r =>
    if a = '-' ∧ b = '-' then collapseHyphens (b :: r)
    else a :: collapseHyphens (b :: r)

/-- The final length check of `utils.sanitize_filename`:
`if len(sanitized) > 100: sanitized = sanitized[:100]`. -/
def truncate100 (s : Str) : Str :=
  if s.length > 100 then s.take 100 else s

/-- `utils.sanitize_filename`: lowercase, replace invalid characters and
spaces with hyphens, collapse hyphen runs, strip hyphens at the ends,
truncate to 100 characters. -/
def sanitize_filename (title : Str) : Str :=
  truncate100 (pyStripChars ['-'] (collapseHyphens
    (((title.map asciiLower).map (fun c => if isInvalidChar c then '-' else c)).map
      (fun c => if c = ' ' then '-' else c))))

/-- The single-quote character (ASCII 39). -/
def squote : Char := Char.ofNat 39

/-- The characters stripped by Python `.strip('"\'')` in the tag parsers:
a double quote and a single quote. -/
def quoteChars : Str := ['"', squote]

/-- Shared by both inline tag parsers: given the text after `tags:`
stripped (which starts with `[`), strip the brackets, split on commas and
strip whitespace plus one run of quotes from each piece
(`tags_str.strip("[]")` then `tag.strip().strip('"\'')` per piece). -/
def parseBracketTags (tagsStr : Str) : List Str :=
  let inner := pyStripChars ['[', ']'] tagsStr
  (pySplitChar ',' inner).map (fun piece => pyStripChars quoteChars (pyStrip piece))

/-- The part of `line` after the first occurrence of `tags:`
(`line.split("tags:", 1)[1]`); the callers only evaluate this under a
`startswith("tags:")` guard, so the occurrence exists and the `[]`
default is never reached. -/
def afterTagsKey (line : Str) : Str :=
  match pySplitOnce ("tags:".toList) line with
  | some (_, after) => after
  | none => []

/-- One line of the tag extraction inlined in `pick_command`
(cli.py lines 338-348): the block-format branch is an `elif` **inside**
the `tags:` branch, exactly as in the source. -/
def pickTagsOfLine (fileTags : List Str) (line : Str) : List Str :=
  if ("tags:".toList).isPrefixOf (pyStrip line) then
    if ("[".toList).isPrefixOf (pyStrip (afterTagsKey line)) then
      fileTags ++ parseBracketTags (pyStrip (afterTagsKey line))
    else if ("- ".toList).isPrefixOf (pyStrip line) then
      fileTags ++ [pyStripChars quoteChars (pyStrip ((pyStrip line).drop 2))]
    else fileTags
  else fileTags

/-- One line of the tag extraction inlined in `edit_command`
(cli.py lines 499-509): here the block-format branch is an `elif` of the
**outer** `tags:` test. -/
def editTagsOfLine (fileTags : List Str) (line : Str) : List Str :=
  if ("tags:".toList).isPrefixOf (pyStrip line) then
    if ("[".toList).isPrefixOf (pyStrip (afterTagsKey line)) then
      fileTags ++ parseBracketTags (pyStrip (afterTagsKey line))
    else fileTags
  else if ("- ".toList).isPrefixOf (pyStrip line) then
    fileTags ++ [pyStripChars quoteChars (pyStrip ((pyStrip line).drop 2))]
  else fileTags

/-- Final value of `file_tags` after `pick_command`'s per-file line loop
(ignoring the membership test): lines equal to `---` after stripping
toggle `in_yaml`, other lines extract tags only while inside the block. -/
def pickFileTags : List Str → List Str → Bool → List Str
  | [], fileTags, _ => fileTags
  | line :: rest, fileTags, inYaml =>
    if pyStrip line = "---".toList then pickFileTags rest fileTags (!inYaml)
    else
      pickFileTags rest
        (if inYaml then pickTagsOfLine fileTags line else fileTags) inYaml

/-- Final value of `file_tags` after `edit_command`'s per-file line loop. -/
def editFileTags : List Str → List Str → Bool → List Str
  | [], fileTags, _ => fileTags
  | line :: rest, fileTags, inYaml =>
    if pyStrip line = "---".toList then editFileTags rest fileTags (!inYaml)
    else
      editFileTags rest
        (if inYaml then editTagsOfLine fileTags line else fileTags) inYaml

/-- `pick_command`'s per-file loop, counting how many times
`filtered_files.append(file)` runs: the `all(tag in file_tags ...)` test
sits **inside** the line loop (cli.py line 349), runs on every line other
than a `---` line, and sees the tags accumulated so far. -/
def pickFileLoop (req : List Str) : List Str → List Str → Bool → Nat
  | [], _, _ => 0
  | line :: rest, fileTags, inYaml =>
    if pyStrip line = "---".toList then pickFileLoop req rest fileTags (!inYaml)
    else
      (if ∀ tg ∈ req, tg ∈ (if inYaml then pickTagsOfLine fileTags line else fileTags)
       then 1 else 0) +
        pickFileLoop req rest
          (if inYaml then pickTagsOfLine fileTags line else fileTags) inYaml

/-- The `filtered_files` list built by `pick_command` (cli.py 327-351)
from the files (path, content) and the required tags: each file
contributes one copy of its path per append performed by the loop. -/
def pickFilter : List (Str × Str) → List Str → List Str
  | [], _ => []
  | (p, c) :: rest, req =>
    List.replicate (pickFileLoop req (pySplitlines c) [] false) p ++ pickFilter rest req

/-- The `filtered_files` list built by `edit_command` (cli.py 488-512):
the membership test runs once per file, after the line loop. -/
def editFilter : List (Str × Str) → List Str → List Str
  | [], _ => []
  | (p, c) :: rest, req =>
    (if ∀ tg ∈ req, tg ∈ editFileTags (pySplitlines c) [] false then [p] else []) ++
      editFilter rest req

/-- `pick_command`'s filtering phase including the `if tags:` guard:
with no required tags the candidate list is left untouched. -/
def pickFilterPhase (files : List (Str × Str)) (tags : List Str) : List Str :=
  if tags.isEmpty then files.map Prod.fst else pickFilter files tags

/-- `edit_command`'s filtering phase including its
`if tags and len(tags) > 0:` guard. -/
def editFilterPhase (files : List (Str × Str)) (tags : List Str) : List Str :=
  if tags.isEmpty then files.map Prod.fst else editFilter files tags

/-- `", ".join(pieces)`. -/
def joinSep (sep : Str) : List Str → Str
  | [] => []
  | [x] => x
  | x :: y :: r => x ++ sep ++ joinSep sep (y :: r)

/-- `yaml_tags = ", ".join([f'"{tag.strip()}"' for tag in tags])`
(cli.py line 215). -/
def yamlTagsJoin (tags : List Str) : Str :=
  joinSep (", ".toList) (tags.map (fun t => "\"".toList ++ pyStrip t ++ "\"".toList))

/-- The document text written by `add_command` (cli.py lines 216-222):
the f-string template with title, description and the joined tag list
interpolated, followed by an empty body. -/
def addRenderContent (title description : Str) (tags : List Str) : Str :=
  "---\ntitle: \"".toList ++ title ++
  "\"\ndescription: \"".toList ++ description ++
  "\"\ntags: [".toList ++ yamlTagsJoin tags ++
  "]\n---\n\n".toList

/-- The text of `addRenderContent` strictly between the two `---`
delimiters (used to state when the metadata section is free of stray
`---` occurrences). -/
def renderMiddle (title description : Str) (tags : List Str) : Str :=
  "\ntitle: \"".toList ++ title ++
  "\"\ndescription: \"".toList ++ description ++
  "\"\ntags: [".toList ++ yamlTagsJoin tags ++
  "]\n".toList

/-- `init_command` (cli.py 60-100) acting on the target directory: the
state is `some contents` when the target exists (as a list of relative
paths inside it) and `none` otherwise.  The code removes an existing
target with `shutil.rmtree`, recreates it with a `Prompts` subdirectory
and the example document, and returns normally (exit code 0); it has no
force flag and no failure branch. -/
def init_command (target : Option (List String)) : Option (List String) × Nat :=
  match target with
  | some _ => (some ["Prompts", "Prompts/example_prompt.md"], 0)
  | none => (some ["Prompts", "Prompts/example_prompt.md"], 0)

/-- Outcome of the external editor subprocess in `utils.open_editor`. -/
inductive EditorOutcome
  | success
  | nonzeroExit
  | notFound
deriving DecidableEq

/-- `utils.open_editor` (utils.py 164-188): returns `True` on a clean
exit, `False` both on `CalledProcessError` (non-zero exit status) and on
`FileNotFoundError` (missing editor executable). -/
def open_editor : EditorOutcome → Bool
  | .success => true
  | .nonzeroExit => false
  | .notFound => false

/-- The tail of `add_command` from `prompt_path.write_text` on
(cli.py 225-240), acting on the list of files in the `Prompts`
directory: write the new file, invoke the editor, and on editor failure
unlink the new file and exit with code 1; otherwise exit 0. -/
def add_editor_phase (prompts : List String) (newFile : String)
    (o : EditorOutcome) : List String × Nat :=
  let afterWrite := prompts ++ [newFile]
  if open_editor o then (afterWrite, 0)
  else ((afterWrite.erase newFile), 1)

/-- Outcome of the external `fzf` chooser invocation in `pick_command`. -/
inductive ChooserOutcome
  | chosen (path : Str)
  | cancelled
  | toolMissing
deriving DecidableEq

/-- Exit code of `pick_command`'s chooser phase and what follows it
(cli.py 365-418): `CalledProcessError` (user cancelled) exits 0,
`FileNotFoundError` (fzf missing) exits 1, a selection is read, its body
extracted and copied to the clipboard, exiting 0. -/
def pickChoosePhase : ChooserOutcome → Nat
  | .chosen _ => 0
  | .cancelled => 0
  | .toolMissing => 1

/-- Exit code of `pick_command` (cli.py 309-418) as a function of the
vault's validity, the listed files with their contents, the `--tag`
options, and the chooser outcome.  An invalid vault makes
`validate_vault_path` raise `typer.Exit(1)`; an empty candidate list
exits 1; with tags given, an empty filtered list exits 1. -/
def pick_command (vaultValid : Bool) (files : List (Str × Str))
    (tags : List Str) (chooser : ChooserOutcome) : Nat :=
  if !vaultValid then 1
  else if files.isEmpty then 1
  else if !tags.isEmpty then
    if (pickFilter files tags).isEmpty then 1
    else pickChoosePhase chooser
  else pickChoosePhase chooser

/-- Number of left-to-right non-overlapping occurrences of `---` in `s`,
capped at two (all `extract_prompt_content` is sensitive to). -/
def dddCount2 (s : Str) : Nat :=
  match pySplitOnce ("---".toList) s with
  | none => 0
  | some (_, r) =>
    match pySplitOnce ("---".toList) r with
    | none => 1
    | some _ => 2

/-- A lowercase ASCII letter, an ASCII digit, or a hyphen: the
character set of the spec's idempotence property for
`sanitize_filename`. -/
def allowedChar (c : Char) : Bool :=
  ('a' ≤ c && c ≤ 'z') || ('0' ≤ c && c ≤ '9') || c = '-'

/-- A document whose metadata block carries its tag in the inline
bracketed form. -/
def bracketStyleDoc : Str :=
  "---\ntitle: \"T\"\ntags: [\"a\"]\n---\n\nbody".toList

/-- A document whose metadata block carries its tag in the hand-written
block-list form (`tags:` followed by `- "a"`). -/
def blockStyleDoc : Str :=
  "---\ntags:\n- \"a\"\n---\n\nbody".toList

/-- A second bracket-style document, tagged `b`. -/
def bracketStyleDocB : Str :=
  "---\ntitle: \"U\"\ntags: [\"b\"]\n---\n\nother".toList

/-- Whether the string contains two adjacent hyphens (proof-side helper
for the sanitizer). -/
def hasDD : Str → Bool
  | a :: b :: r => (a = '-' && b = '-') || hasDD (b :: r)
  | _ => false

/-- A 101-character title of alternating `a`/`-` ending in `b`: it
consists only of allowed characters, its sanitized form is cut at the
100-character mark right after a hyphen, and stripping that trailing
hyphen on a second pass changes the result. -/
def xbadC5 : Str := (List.replicate 50 ['a', '-']).flatten ++ ['b']

end Promptkeep

namespace Promptkeep

/-- Claim C1: the spec says `pick_command`'s tag-filtering step keeps each
matching document exactly once.  The code runs the membership test inside
the line loop, so a single matching document is appended once per
non-delimiter line from the point its tags are complete: here three
times instead of once. -/
theorem C1_pick_filter_duplicates_file :
    pickFilter [("f.md".toList, bracketStyleDoc)] ["a".toList] =
      ["f.md".toList, "f.md".toList, "f.md".toList] ∧
    pickFilter [("f.md".toList, bracketStyleDoc)] ["a".toList] ≠ ["f.md".toList] := by
  decide

/-- Claim C2: the spec says `pick_command`'s inline extraction recovers
block-form tags (`- "a"` lines).  In the code that branch is an `elif`
nested inside the `tags:` branch and can never fire, so the block-form
tag is never extracted and the document is filtered out, while
`edit_command`'s correctly-nested copy extracts it. -/
theorem C2_pick_misses_block_tags :
    pickFileTags (pySplitlines blockStyleDoc) [] false = [] ∧
    editFileTags (pySplitlines blockStyleDoc) [] false = ["a".toList] ∧
    pickFilter [("f.md".toList, blockStyleDoc)] ["a".toList] = [] := by
  decide

/-- Claim C3: the spec says `init` without `--force` fails with
`AlreadyExists` (exit 1) and leaves an existing target untouched.  The
code has no force flag at all: it removes the existing directory and
recreates the vault, exiting 0, so the prior contents are destroyed. -/
theorem C3_init_overwrites_existing_target :
    (init_command (some ["stray.txt"])).2 = 0 ∧
    (init_command (some ["stray.txt"])).1 = some ["Prompts", "Prompts/example_prompt.md"] := by
  constructor <;> rfl

/-- Claim C8: in `add_command`, when `open_editor` reports failure
(either a non-zero editor exit or a missing editor executable), the newly
created prompt file is unlinked before the command exits with code 1, so
the `Prompts` directory is exactly as it was before the add. -/
theorem C8_add_cleans_up_on_editor_failure
    (prompts : List String) (newFile : String) (o : EditorOutcome)
    (hnew : newFile ∉ prompts) (hfail : open_editor o = false) :
    add_editor_phase prompts newFile o = (prompts, 1) := by
  unfold add_editor_phase
  rw [hfail]
  simp only [Bool.false_eq_true, if_false]
  rw [List.erase_append_right _ hnew, List.erase_cons_head, List.append_nil]

/-- Witness for C8 at a concrete vault state and a non-zero editor
exit. -/
theorem C8_add_cleans_up_on_editor_failure_witness :
    ("new.md" ∉ ["example_prompt.md"]) ∧
    open_editor EditorOutcome.nonzeroExit = false ∧
    add_editor_phase ["example_prompt.md"] "new.md" EditorOutcome.nonzeroExit =
      (["example_prompt.md"], 1) :=
  ⟨by decide, rfl,
    C8_add_cleans_up_on_editor_failure _ _ _ (by decide) rfl⟩

/-- Claim C9: `pick_command` exits 1 when the vault is invalid, when the
candidate list is empty before filtering, and when it is empty after tag
filtering; the chooser phase exits 0 on cancellation and on a successful
selection-and-copy, and 1 when the chooser tool is missing. -/
theorem C9_pick_exit_codes (files : List (Str × Str)) (tags : List Str)
    (ch : ChooserOutcome) :
    pick_command false files tags ch = 1 ∧
    pick_command true [] tags ch = 1 ∧
    (tags ≠ [] → pickFilter files tags = [] → pick_command true files tags ch = 1) ∧
    (files ≠ [] → (tags = [] ∨ pickFilter files tags ≠ []) →
      pick_command true files tags ch = pickChoosePhase ch) ∧
    pickChoosePhase ChooserOutcome.cancelled = 0 ∧
    pickChoosePhase ChooserOutcome.toolMissing = 1 ∧
    (∀ p, pickChoosePhase (ChooserOutcome.chosen p) = 0) := by
  refine ⟨rfl, rfl, ?_, ?_, rfl, rfl, fun _ => rfl⟩
  · intro htags hfilt
    unfold pick_command
    cases files with
    | nil => rfl
    | cons f fs =>
      cases tags with
      | nil => exact absurd rfl htags
      | cons t ts => simp [hfilt]
  · intro hfiles hside
    unfold pick_command
    cases files with
    | nil => exact absurd rfl hfiles
    | cons f fs =>
      rcases hside with h | h
      · simp [h]
      · rcases htags : tags with _ | ⟨t, ts⟩
        · simp
        · rw [htags] at h
          simp [List.isEmpty_iff, h]

/-- Witness for C9: with one block-style document and required tag `a`
the filter comes back empty and pick exits 1 even though the user would
have cancelled; with the bracket-style document the chooser phase runs
and cancellation exits 0. -/
theorem C9_pick_exit_codes_witness :
    pick_command true [("f.md".toList, blockStyleDoc)] ["a".toList]
      ChooserOutcome.cancelled = 1 ∧
    pick_command true [("f.md".toList, bracketStyleDoc)] ["a".toList]
      ChooserOutcome.cancelled = 0 := by
  constructor
  · exact (C9_pick_exit_codes [("f.md".toList, blockStyleDoc)] ["a".toList]
      ChooserOutcome.cancelled).2.2.1 (by decide) (by decide)
  · have h := (C9_pick_exit_codes [("f.md".toList, bracketStyleDoc)] ["a".toList]
      ChooserOutcome.cancelled).2.2.2.1 (by decide) (Or.inr (by decide))
    simpa using h

/-- Claim C10: with an empty required-tag list (no `--tag` options), both
`pick_command` and `edit_command` skip the filtering block entirely and
the candidate list is returned unchanged. -/
theorem C10_empty_tags_filter_is_identity (files : List (Str × Str)) :
    pickFilterPhase files [] = files.map Prod.fst ∧
    editFilterPhase files [] = files.map Prod.fst := by
  constructor <;> rfl

/-- Claim C7 (counterexample): `"x---y---z"` contains no delimiter line
(no line whose stripped form is `---`), yet `extract_prompt_content`
returns `"z"` rather than the whole content trimmed, because the code
splits on the substring `---`, not on delimiter lines. -/
theorem C7_substring_split_counterexample :
    (∀ line ∈ pySplitlines ("x---y---z".toList), pyStrip line ≠ "---".toList) ∧
    extract_prompt_content ("x---y---z".toList) ≠ pyStrip ("x---y---z".toList) := by
  decide

/-- Claim C7 (amended): for content with fewer than two left-to-right
occurrences of the substring `---`, `extract_prompt_content` returns the
entire content trimmed of surrounding whitespace. -/
theorem C7_few_delimiters_whole_body (s : Str) (h : dddCount2 s < 2) :
    extract_prompt_content s = pyStrip s := by
  have e3 : ("---".toList : Str) = ['-', '-', '-'] := rfl
  unfold dddCount2 at h
  rw [e3] at h
  unfold extract_prompt_content pySplit2
  rw [e3]
  cases h1 : pySplitOnce ['-', '-', '-'] s with
  | none => simp [h1]
  | some ar =>
    obtain ⟨a, r⟩ := ar
    rw [h1] at h
    cases h2 : pySplitOnce ['-', '-', '-'] r with
    | none => simp [h1, h2]
    | some br =>
      have h' : (match pySplitOnce ['-', '-', '-'] r with
          | none => 1 | some _ => 2) < 2 := h
      rw [h2] at h'
      simp at h'

/-- Witness for C7 at a content with no `---` occurrence. -/
theorem C7_few_delimiters_whole_body_witness :
    dddCount2 ("just a note".toList) < 2 ∧
    extract_prompt_content ("just a note".toList) = pyStrip ("just a note".toList) :=
  ⟨by decide, C7_few_delimiters_whole_body _ (by decide)⟩

/-- An allowed character is left unchanged by each of the three
character replacements in `sanitize_filename`. -/
theorem allowed_char_fixed (c : Char) (h : allowedChar c = true) :
    asciiLower c = c ∧ isInvalidChar c = false ∧ c ≠ ' ' := by
  unfold allowedChar at h
  simp only [Bool.or_eq_true, Bool.and_eq_true, decide_eq_true_eq] at h
  unfold asciiLower isInvalidChar
  rcases h with (⟨h1, h2⟩ | ⟨h1, h2⟩) | h1
  · refine ⟨?_, ?_, ?_⟩
    · rw [if_neg]
      rintro ⟨-, hz⟩
      have := le_trans h1 hz
      revert this
      decide
    · simp only [Bool.or_eq_false_iff, decide_eq_false_iff_not]
      refine ⟨⟨⟨⟨⟨⟨⟨⟨?_, ?_⟩, ?_⟩, ?_⟩, ?_⟩, ?_⟩, ?_⟩, ?_⟩, ?_⟩ <;>
        · rintro rfl
          revert h1 h2
          decide
    · rintro rfl
      revert h1
      decide
  · refine ⟨?_, ?_, ?_⟩
    · rw [if_neg]
      rintro ⟨ha, -⟩
      have := le_trans ha h2
      revert this
      decide
    · simp only [Bool.or_eq_false_iff, decide_eq_false_iff_not]
      refine ⟨⟨⟨⟨⟨⟨⟨⟨?_, ?_⟩, ?_⟩, ?_⟩, ?_⟩, ?_⟩, ?_⟩, ?_⟩, ?_⟩ <;>
        · rintro rfl
          revert h1 h2
          decide
    · rintro rfl
      revert h1
      decide
  · subst h1
    refine ⟨by decide, by decide, by decide⟩

/-- Mapping a function that fixes every element of a list is the
identity on it. -/
theorem map_id_on (f : Char → Char) :
    ∀ l : Str, (∀ c ∈ l, f c = c) → l.map f = l
  | [], _ => rfl
  | c :: r, h => by
    rw [List.map_cons, h c (List.mem_cons_self c r),
      map_id_on f r (fun x hx => h x (List.mem_cons_of_mem c hx))]

/-- `collapseHyphens` keeps the head of a nonempty list. -/
theorem collapseHyphens_cons :
    ∀ (c : Char) (r : Str), ∃ t, collapseHyphens (c :: r) = c :: t
  | c, [] => ⟨[], rfl⟩
  | c, b :: r => by
    obtain ⟨t, ht⟩ := collapseHyphens_cons b r
    by_cases h : c = '-' ∧ b = '-'
    · exact ⟨t, by rw [collapseHyphens, if_pos h, ht, h.1, h.2]⟩
    · exact ⟨collapseHyphens (b :: r), by rw [collapseHyphens, if_neg h]⟩

/-- The output of `collapseHyphens` has no two adjacent hyphens. -/
theorem hasDD_collapseHyphens : ∀ s : Str, hasDD (collapseHyphens s) = false
  | [] => rfl
  | [c] => rfl
  | a :: b :: r => by
    by_cases h : a = '-' ∧ b = '-'
    · rw [collapseHyphens, if_pos h]
      exact hasDD_collapseHyphens (b :: r)
    · rw [collapseHyphens, if_neg h]
      obtain ⟨t, ht⟩ := collapseHyphens_cons b r
      rw [ht, hasDD, ← ht]
      rw [hasDD_collapseHyphens (b :: r)]
      simp only [Bool.or_false, Bool.and_eq_false_iff, decide_eq_false_iff_not]
      by_cases ha : a = '-'
      · exact Or.inr (fun hb => h ⟨ha, hb⟩)
      · exact Or.inl ha

/-- `collapseHyphens` is the identity on strings without adjacent
hyphens. -/
theorem collapseHyphens_of_hasDD_false :
    ∀ s : Str, hasDD s = false → collapseHyphens s = s
  | [], _ => rfl
  | [c], _ => rfl
  | a :: b :: r, h => by
    rw [hasDD, Bool.or_eq_false_iff] at h
    obtain ⟨h1, h2⟩ := h
    rw [collapseHyphens, if_neg (by
      rintro ⟨ha, hb⟩
      rw [ha, hb] at h1
      simp at h1)]
    rw [collapseHyphens_of_hasDD_false (b :: r) h2]

/-- `collapseHyphens` never lengthens a string. -/
theorem length_collapseHyphens_le :
    ∀ s : Str, (collapseHyphens s).length ≤ s.length
  | [] => le_refl _
  | [c] => le_refl _
  | a :: b :: r => by
    by_cases h : a = '-' ∧ b = '-'
    · rw [collapseHyphens, if_pos h]
      exact le_trans (length_collapseHyphens_le (b :: r)) (by simp)
    · rw [collapseHyphens, if_neg h]
      simpa using length_collapseHyphens_le (b :: r)

/-- Every character of `collapseHyphens s` comes from `s`. -/
theorem mem_of_mem_collapseHyphens :
    ∀ (s : Str) (x : Char), x ∈ collapseHyphens s → x ∈ s
  | [], _, h => h
  | [c], _, h => h
  | a :: b :: r, x, h => by
    by_cases hc : a = '-' ∧ b = '-'
    · rw [collapseHyphens, if_pos hc] at h
      exact List.mem_cons_of_mem a (mem_of_mem_collapseHyphens (b :: r) x h)
    · rw [collapseHyphens, if_neg hc] at h
      rcases List.mem_cons.mp h with rfl | h
      · exact List.mem_cons_self _ _
      · exact List.mem_cons_of_mem a (mem_of_mem_collapseHyphens (b :: r) x h)

/-- Adjacent-hyphen freedom passes to the tail. -/
theorem hasDD_tail {c : Char} {r : Str} (h : hasDD (c :: r) = false) :
    hasDD r = false := by
  cases r with
  | nil => rfl
  | cons b r' =>
    rw [hasDD] at h
    exact (Bool.or_eq_false_iff.mp h).2

/-- `dropWhile` preserves adjacent-hyphen freedom. -/
theorem hasDD_dropWhile (p : Char → Bool) :
    ∀ s : Str, hasDD s = false → hasDD (s.dropWhile p) = false
  | [], _ => rfl
  | c :: r, h => by
    rw [List.dropWhile_cons]
    by_cases hp : p c = true
    · rw [if_pos hp]
      exact hasDD_dropWhile p r (hasDD_tail h)
    · rw [if_neg hp]
      exact h

/-- `dropTrailingWhile` keeps the head of its input when the result is
nonempty. -/
theorem dropTrailingWhile_cons_of_cons (p : Char → Bool) :
    ∀ (s : Str) (d : Char) (t : Str),
      dropTrailingWhile p s = d :: t → ∃ u, s = d :: u
  | [], d, t, h => by simp [dropTrailingWhile] at h
  | c :: r, d, t, h => by
    rw [dropTrailingWhile] at h
    cases hw : dropTrailingWhile p r with
    | nil =>
      rw [hw] at h
      by_cases hp : p c = true
      · rw [if_pos hp] at h
        exact absurd h (by simp)
      · rw [if_neg hp] at h
        exact ⟨r, by rw [(List.cons.injEq _ _ _ _).mp h |>.1]⟩
    | cons e u =>
      rw [hw] at h
      exact ⟨r, by rw [(List.cons.injEq _ _ _ _).mp h |>.1]⟩

/-- `dropTrailingWhile` preserves adjacent-hyphen freedom. -/
theorem hasDD_dropTrailingWhile (p : Char → Bool) :
    ∀ s : Str, hasDD s = false → hasDD (dropTrailingWhile p s) = false
  | [], _ => rfl
  | c :: r, h => by
    rw [dropTrailingWhile]
    cases hw : dropTrailingWhile p r with
    | nil =>
      by_cases hp : p c = true
      · rw [if_pos hp]
        rfl
      · rw [if_neg hp]
        rfl
    | cons d u =>
      obtain ⟨u', hu'⟩ := dropTrailingWhile_cons_of_cons p r d u hw
      have hr : hasDD (d :: u) = false := by
        rw [← hw]
        exact hasDD_dropTrailingWhile p r (hasDD_tail h)
      rw [hasDD]
      simp only [Bool.or_eq_false_iff]
      refine ⟨?_, hr⟩
      have hcd : hasDD (c :: d :: u') = false := by rw [← hu']; exact h
      rw [hasDD] at hcd
      exact (Bool.or_eq_false_iff.mp hcd).1

/-- Every character of `dropTrailingWhile p s` comes from `s`. -/
theorem mem_of_mem_dropTrailingWhile (p : Char → Bool) :
    ∀ (s : Str) (x : Char), x ∈ dropTrailingWhile p s → x ∈ s
  | [], x, h => h
  | c :: r, x, h => by
    rw [dropTrailingWhile] at h
    cases hw : dropTrailingWhile p r with
    | nil =>
      rw [hw] at h
      by_cases hp : p c = true
      · rw [if_pos hp] at h
        exact absurd h (by simp)
      · rw [if_neg hp] at h
        rcases List.mem_cons.mp h with rfl | h
        · exact List.mem_cons_self _ _
        · exact absurd h (by simp)
    | cons d u =>
      rw [hw] at h
      rcases List.mem_cons.mp h with rfl | h
      · exact List.mem_cons_self _ _
      · exact List.mem_cons_of_mem c
          (mem_of_mem_dropTrailingWhile p r x (hw ▸ h))

/-- `dropTrailingWhile` never lengthens a string. -/
theorem length_dropTrailingWhile_le (p : Char → Bool) :
    ∀ s : Str, (dropTrailingWhile p s).length ≤ s.length
  | [] => le_refl _
  | c :: r => by
    rw [dropTrailingWhile]
    cases hw : dropTrailingWhile p r with
    | nil =>
      by_cases hp : p c = true
      · rw [if_pos hp]
        simp

      · rw [if_neg hp]
        simp
    | cons d u =>
      have := length_dropTrailingWhile_le p r
      rw [hw] at this
      simpa using Nat.succ_le_succ this

/-- The last character kept by `dropTrailingWhile` fails the
predicate. -/
theorem dropTrailingWhile_getLast (p : Char → Bool) :
    ∀ (s : Str) (b : Char),
      (dropTrailingWhile p s).getLast? = some b → p b = false
  | [], b, h => by simp [dropTrailingWhile] at h
  | c :: r, b, h => by
    rw [dropTrailingWhile] at h
    cases hw : dropTrailingWhile p r with
    | nil =>
      rw [hw] at h
      by_cases hp : p c = true
      · rw [if_pos hp] at h
        simp at h
      · rw [if_neg hp] at h
        simp only [List.getLast?_singleton, Option.some.injEq] at h
        rw [← h]
        exact Bool.eq_false_iff.mpr hp
    | cons d u =>
      rw [hw] at h
      rw [List.getLast?_cons_cons] at h
      exact dropTrailingWhile_getLast p r b (hw ▸ h)

/-- `dropTrailingWhile` is the identity when the last character (if any)
fails the predicate. -/
theorem dropTrailingWhile_noop (p : Char → Bool) :
    ∀ s : Str, (∀ b, s.getLast? = some b → p b = false) →
      dropTrailingWhile p s = s
  | [], _ => rfl
  | c :: r, h => by
    rw [dropTrailingWhile]
    cases r with
    | nil =>
      simp only [dropTrailingWhile]
      rw [if_neg]
      rw [h c (by simp)]
      simp
    | cons b r' =>
      have hr : dropTrailingWhile p (b :: r') = b :: r' :=
        dropTrailingWhile_noop p (b :: r')
          (fun x hx => h x (by rw [List.getLast?_cons_cons]; exact hx))
      rw [hr]

/-- The first character kept by `dropWhile` fails the predicate. -/
theorem dropWhile_head_false (p : Char → Bool) :
    ∀ (s : Str) (c : Char) (t : Str), s.dropWhile p = c :: t → p c = false
  | [], c, t, h => by simp at h
  | a :: r, c, t, h => by
    rw [List.dropWhile_cons] at h
    by_cases hp : p a = true
    · rw [if_pos hp] at h
      exact dropWhile_head_false p r c t h
    · rw [if_neg hp] at h
      rw [← ((List.cons.injEq _ _ _ _).mp h).1]
      exact Bool.eq_false_iff.mpr hp

/-- On all-allowed input the three character replacements of
`sanitize_filename` vanish, leaving collapse, strip and truncate. -/
theorem sanitize_eq_of_allowed (x : Str) (h : ∀ c ∈ x, allowedChar c = true) :
    sanitize_filename x = truncate100 (pyStripChars ['-'] (collapseHyphens x)) := by
  unfold sanitize_filename
  rw [map_id_on asciiLower x (fun c hc => (allowed_char_fixed c (h c hc)).1)]
  rw [map_id_on _ x (fun c hc => by
    simp [(allowed_char_fixed c (h c hc)).2.1])]
  rw [map_id_on _ x (fun c hc => if_neg (allowed_char_fixed c (h c hc)).2.2)]

/-- Truncation is the identity below the length bound. -/
theorem truncate100_noop (s : Str) (h : s.length ≤ 100) : truncate100 s = s := by
  unfold truncate100
  rw [if_neg (by omega)]

/-- Claim C5 (counterexample): a 101-character title of allowed
characters (alternating `a`/`-`, ending in `b`) on which
`sanitize_filename` is not idempotent: the 100-character truncation ends
on a hyphen that the second pass strips. -/
theorem C5_sanitize_not_idempotent_at_101_chars :
    xbadC5.all allowedChar = true ∧
    sanitize_filename (sanitize_filename xbadC5) ≠ sanitize_filename xbadC5 := by
  decide

/-- Claim C5 (amended): `sanitize_filename` is idempotent on strings of
lowercase letters, digits and hyphens of length at most 100 (so that
truncation cannot cut the string right after a hyphen). -/
theorem C5_sanitize_idempotent_on_allowed (x : Str)
    (hall : x.all allowedChar = true) (hlen : x.length ≤ 100) :
    sanitize_filename (sanitize_filename x) = sanitize_filename x := by
  have hmem : ∀ c ∈ x, allowedChar c = true := by
    intro c hc
    exact List.all_eq_true.mp hall c hc
  have hylen : (pyStripChars ['-'] (collapseHyphens x)).length ≤ x.length := by
    unfold pyStripChars
    exact le_trans (length_dropTrailingWhile_le _ _)
      (le_trans (List.dropWhile_sublist _).length_le (length_collapseHyphens_le x))
  have hx : sanitize_filename x = pyStripChars ['-'] (collapseHyphens x) := by
    rw [sanitize_eq_of_allowed x hmem, truncate100_noop _ (by omega)]
  rw [hx]
  have hymem : ∀ c ∈ pyStripChars ['-'] (collapseHyphens x), allowedChar c = true := by
    intro c hc
    unfold pyStripChars at hc
    exact hmem c (mem_of_mem_collapseHyphens x c
      ((List.dropWhile_sublist _).mem (mem_of_mem_dropTrailingWhile _ _ c hc)))
  have hyDD : hasDD (pyStripChars ['-'] (collapseHyphens x)) = false := by
    unfold pyStripChars
    exact hasDD_dropTrailingWhile _ _ (hasDD_dropWhile _ _ (hasDD_collapseHyphens x))
  rw [sanitize_eq_of_allowed _ hymem]
  rw [collapseHyphens_of_hasDD_false _ hyDD]
  have hsy : pyStripChars ['-'] (pyStripChars ['-'] (collapseHyphens x)) =
      pyStripChars ['-'] (collapseHyphens x) := by
    conv_lhs => rw [pyStripChars]
    have hdw : List.dropWhile (fun c => List.contains ['-'] c)
        (pyStripChars ['-'] (collapseHyphens x)) =
        pyStripChars ['-'] (collapseHyphens x) := by
      cases hY : pyStripChars ['-'] (collapseHyphens x) with
      | nil => rfl
      | cons c t =>
        unfold pyStripChars at hY
        obtain ⟨u, hu⟩ := dropTrailingWhile_cons_of_cons _ _ _ _ hY
        have hpc : List.contains ['-'] c = false :=
          dropWhile_head_false (fun c => List.contains ['-'] c)
            (collapseHyphens x) c u hu
        rw [List.dropWhile_cons, if_neg (by
          intro hcc
          rw [show c = '-' from by simpa using hcc] at hpc
          simp at hpc)]
    rw [hdw]
    conv_rhs => rw [pyStripChars]
    apply dropTrailingWhile_noop
    intro b hb
    exact dropTrailingWhile_getLast (fun c => List.contains ['-'] c)
      (List.dropWhile (fun c => List.contains ['-'] c) (collapseHyphens x)) b hb
  rw [hsy, truncate100_noop _ (by omega)]

/-- Unfolding equation for `pySplitOnce` on a nonempty string. -/
theorem pySplitOnce_cons_eq (sep : Str) (c : Char) (r : Str) :
    pySplitOnce sep (c :: r) =
      (if sep.isPrefixOf (c :: r) then some ([], (c :: r).drop sep.length)
       else
         match pySplitOnce sep r with
         | none => none
         | some (a, b) => some (c :: a, b)) := by
  rw [pySplitOnce]

/-- `pySplitOnce` at a string that starts with the separator. -/
theorem pySplitOnce_at_start (sep rest : Str) (hsep : sep ≠ []) :
    pySplitOnce sep (sep ++ rest) = some ([], rest) := by
  cases sep with
  | nil => exact absurd rfl hsep
  | cons c s' =>
    rw [List.cons_append, pySplitOnce_cons_eq, if_pos (by
      rw [← List.cons_append, List.isPrefixOf_iff_prefix]
      exact List.prefix_append _ _)]
    rw [← List.cons_append, List.drop_left]

/-- `pySplitOnce` on `m ++ "---" ++ b` finds exactly the shown separator
when `m` followed by two more dashes contains no `---`. -/
theorem pySplitOnce_mid : ∀ (m b : Str),
    ¬ (['-', '-', '-'] <:+: (m ++ ['-', '-'])) →
    pySplitOnce ['-', '-', '-'] (m ++ (['-', '-', '-'] ++ b)) = some (m, b)
  | [], b, _ => by
    rw [List.nil_append]
    exact pySplitOnce_at_start _ _ (by simp)
  | c :: m', b, H => by
    rw [List.cons_append, pySplitOnce_cons_eq, if_neg ?hnp]
    case hnp =>
      intro hpre
      rw [ List.isPrefixOf_iff_prefix] at hpre
      have hs : c :: (m' ++ (['-', '-', '-'] ++ b)) =
          ((c :: m') ++ ['-', '-']) ++ ('-' :: b) := by simp
      rw [hs] at hpre
      have htake := List.prefix_iff_eq_take.mp hpre
      rw [List.take_append_eq_append_take] at htake
      have hlen : ((c :: m') ++ ['-', '-']).length ≥ 3 := by
        simp [List.length_append]
      rw [show (['-', '-', '-'] : Str).length = 3 from rfl] at htake
      rw [Nat.sub_eq_zero_of_le hlen, List.take_zero, List.append_nil] at htake
      exact H (htake ▸ ( List.take_prefix _ _).isInfix)
    have H' : ¬ (['-', '-', '-'] <:+: (m' ++ ['-', '-'])) := by
      intro hinf
      obtain ⟨u, v, huv⟩ := hinf
      refine H ⟨c :: u, v, ?_⟩
      simp only [List.cons_append]
      rw [show u ++ ['-', '-', '-'] ++ v = (u ++ ['-', '-', '-']) ++ v from rfl] at huv
      rw [List.append_assoc] at huv
      rw [List.append_assoc, huv]
    rw [pySplitOnce_mid m' b H']

/-- The add template decomposed at its two `---` delimiters. -/
theorem addRenderContent_decomp (t d : Str) (tg : List Str) :
    addRenderContent t d tg =
      ['-', '-', '-'] ++
        (renderMiddle t d tg ++ (['-', '-', '-'] ++ ['\n', '\n'])) := by
  unfold addRenderContent renderMiddle
  rw [show ("---\ntitle: \"".toList : Str) = ['-', '-', '-'] ++ "\ntitle: \"".toList
    from by decide]
  rw [show ("]\n---\n\n".toList : Str) = "]\n".toList ++ (['-', '-', '-'] ++ ['\n', '\n'])
    from by decide]
  simp [List.append_assoc]

/-- Stripping ignores a leading pair of newlines. -/
theorem pyStrip_double_newline (b : Str) : pyStrip ('\n' :: '\n' :: b) = pyStrip b := by
  unfold pyStrip
  rw [List.dropWhile_cons, if_pos (by decide), List.dropWhile_cons, if_pos (by decide)]

/-- `extract_prompt_content` on a well-delimited document whose
metadata section contains no stray `---` returns the stripped tail. -/
theorem extract_render_general (m tail : Str)
    (H : ¬ (['-', '-', '-'] <:+: (m ++ ['-', '-']))) :
    extract_prompt_content
      (['-', '-', '-'] ++ (m ++ (['-', '-', '-'] ++ tail))) = pyStrip tail := by
  unfold extract_prompt_content pySplit2
  rw [show ("---".toList : Str) = ['-', '-', '-'] from rfl]
  rw [pySplitOnce_at_start _ _ (by simp)]
  have hmid : pySplitOnce ['-', '-', '-'] (m ++ '-' :: '-' :: '-' :: tail) =
      some (m, tail) := pySplitOnce_mid m tail H
  simp [hmid]

/-- Claim C6 (counterexample): a title containing `---` defeats the
substring-based split, so `extract_prompt_content` of the freshly
rendered document is not empty. -/
theorem C6_title_with_dashes_counterexample :
    extract_prompt_content (addRenderContent ("a---b".toList) [] []) ≠ [] := by
  decide

/-- Claim C6 (amended): provided the rendered metadata section (with the
first two dashes of the closing delimiter appended) contains no
occurrence of `---`, `extract_prompt_content` of the add template is the
empty string, and of the template with a non-empty body appended is
exactly that body trimmed. -/
theorem C6_render_extract_roundtrip (t d : Str) (tg : List Str)
    (h : ¬ ("---".toList <:+: (renderMiddle t d tg ++ "--".toList))) :
    extract_prompt_content (addRenderContent t d tg) = [] ∧
    ∀ b : Str, b ≠ [] →
      extract_prompt_content (addRenderContent t d tg ++ b) = pyStrip b := by
  have h' : ¬ (['-', '-', '-'] <:+: (renderMiddle t d tg ++ ['-', '-'])) := h
  constructor
  · rw [addRenderContent_decomp, extract_render_general _ _ h']
    rfl
  · intro b hb
    have hc2 : addRenderContent t d tg ++ b =
        ['-', '-', '-'] ++
          (renderMiddle t d tg ++ (['-', '-', '-'] ++ ('\n' :: '\n' :: b))) := by
      rw [addRenderContent_decomp]
      simp
    rw [hc2, extract_render_general _ _ h']
    exact pyStrip_double_newline b

/-- Witness for the amended C6 at a concrete title, description, tag
list and appended body. -/
theorem C6_render_extract_roundtrip_witness :
    (¬ ("---".toList <:+:
      (renderMiddle ("Example".toList) ("desc".toList) ["a".toList] ++ "--".toList))) ∧
    extract_prompt_content
      (addRenderContent ("Example".toList) ("desc".toList) ["a".toList]) = [] ∧
    ("Hello\n".toList ≠ ([] : Str)) ∧
    extract_prompt_content
      (addRenderContent ("Example".toList) ("desc".toList) ["a".toList] ++
        "Hello\n".toList) = pyStrip ("Hello\n".toList) := by
  have h : ¬ ("---".toList <:+:
      (renderMiddle ("Example".toList) ("desc".toList) ["a".toList] ++ "--".toList)) := by
    decide
  exact ⟨h,
    (C6_render_extract_roundtrip _ _ _ h).1,
    by decide,
    (C6_render_extract_roundtrip _ _ _ h).2 _ (by decide)⟩

/-- A tag already accumulated survives `pick_command`'s per-line
extraction. -/
theorem pickTagsOfLine_mono (ft : List Str) (line : Str) (x : Str)
    (hx : x ∈ ft) : x ∈ pickTagsOfLine ft line := by
  unfold pickTagsOfLine
  repeat' split
  all_goals simp [hx]

/-- A tag already accumulated survives `pick_command`'s whole line
loop. -/
theorem pickFileTags_mono :
    ∀ (lines : List Str) (ft : List Str) (inY : Bool) (x : Str),
      x ∈ ft → x ∈ pickFileTags lines ft inY
  | [], _, _, _, hx => hx
  | line :: rest, ft, inY, x, hx => by
    unfold pickFileTags
    by_cases hsep : pyStrip line = "---".toList
    · rw [if_pos hsep]
      exact pickFileTags_mono rest ft (!inY) x hx
    · rw [if_neg hsep]
      apply pickFileTags_mono
      by_cases hy : inY = true
      · rw [if_pos hy]
        exact pickTagsOfLine_mono ft line x hx
      · rw [if_neg hy]
        exact hx

/-- `pick_command` appends a file at least once exactly when the tags it
eventually accumulates contain all required tags — provided they do not
do so already (as at the start of each file, where `file_tags` is empty
and the required list is nonempty). -/
theorem pickFileLoop_pos (req : List Str) :
    ∀ (lines : List Str) (ft : List Str) (inY : Bool),
      ¬ (∀ tg ∈ req, tg ∈ ft) →
      (0 < pickFileLoop req lines ft inY ↔
        ∀ tg ∈ req, tg ∈ pickFileTags lines ft inY)
  | [], ft, inY, hft => by
    unfold pickFileLoop pickFileTags
    exact iff_of_false (by omega) hft
  | line :: rest, ft, inY, hft => by
    unfold pickFileLoop pickFileTags
    by_cases hsep : pyStrip line = "---".toList
    · rw [if_pos hsep, if_pos hsep]
      exact pickFileLoop_pos req rest ft (!inY) hft
    · rw [if_neg hsep, if_neg hsep]
      by_cases hall : ∀ tg ∈ req, tg ∈ (if inY then pickTagsOfLine ft line else ft)
      · rw [if_pos hall]
        refine iff_of_true (by omega) ?_
        intro tg htg
        exact pickFileTags_mono rest _ inY tg (hall tg htg)
      · rw [if_neg hall, Nat.zero_add]
        exact pickFileLoop_pos req rest _ inY hall

/-- On a line whose stripped form does not start with `- `, the two
inlined per-line extractions agree. -/
theorem tagsOfLine_eq (ft : List Str) (line : Str)
    (h : ("- ".toList).isPrefixOf (pyStrip line) = false) :
    pickTagsOfLine ft line = editTagsOfLine ft line := by
  have h' : ¬ (['-', ' '] <+: pyStrip line) := by
    rw [← List.isPrefixOf_iff_prefix]
    rw [show ((['-', ' '] : Str).isPrefixOf (pyStrip line)) =
      (("- ".toList).isPrefixOf (pyStrip line)) from rfl, h]
    exact Bool.false_ne_true
  unfold pickTagsOfLine editTagsOfLine
  by_cases h1 : ['t', 'a', 'g', 's', ':'] <+: pyStrip line
  · by_cases h2 : ['['] <+: pyStrip (afterTagsKey line)
    · simp [h1, h2]
    · simp [h1, h2, h']
  · simp [h1, h']

/-- On documents with no block-style line, the tags accumulated by
`pick_command`'s loop equal those accumulated by `edit_command`'s. -/
theorem fileTags_eq :
    ∀ (lines : List Str) (ft : List Str) (inY : Bool),
      (∀ line ∈ lines, ("- ".toList).isPrefixOf (pyStrip line) = false) →
      pickFileTags lines ft inY = editFileTags lines ft inY
  | [], _, _, _ => rfl
  | line :: rest, ft, inY, h => by
    unfold pickFileTags editFileTags
    have hline := h line (List.mem_cons_self _ _)
    have hrest : ∀ l ∈ rest, ("- ".toList).isPrefixOf (pyStrip l) = false :=
      fun l hl => h l (List.mem_cons_of_mem _ hl)
    by_cases hsep : pyStrip line = "---".toList
    · rw [if_pos hsep, if_pos hsep]
      exact fileTags_eq rest ft (!inY) hrest
    · rw [if_neg hsep, if_neg hsep, tagsOfLine_eq ft line hline]
      exact fileTags_eq rest _ inY hrest

/-- Membership in `pick_command`'s filtered list, characterised by the
append count of the per-file loop. -/
theorem mem_pickFilter :
    ∀ (files : List (Str × Str)) (req : List Str) (p : Str),
      p ∈ pickFilter files req ↔
        ∃ c, (p, c) ∈ files ∧ 0 < pickFileLoop req (pySplitlines c) [] false
  | [], req, p => by simp [pickFilter]
  | (q, c0) :: rest, req, p => by
    unfold pickFilter
    rw [List.mem_append, mem_pickFilter rest req p]
    constructor
    · rintro (hrep | ⟨c, hc, hpos⟩)
      · rw [List.mem_replicate] at hrep
        refine ⟨c0, ?_, ?_⟩
        · rw [hrep.2]
          exact List.mem_cons_self _ _
        · omega
      · exact ⟨c, List.mem_cons_of_mem _ hc, hpos⟩
    · rintro ⟨c, hc, hpos⟩
      rcases List.mem_cons.mp hc with heq | hc'
      · left
        rw [List.mem_replicate]
        have hp : p = q := congrArg Prod.fst heq
        have hcc : c = c0 := congrArg Prod.snd heq
        rw [hcc] at hpos
        exact ⟨by omega, hp⟩
      · right
        exact ⟨c, hc', hpos⟩

/-- Membership in `edit_command`'s filtered list. -/
theorem mem_editFilter :
    ∀ (files : List (Str × Str)) (req : List Str) (p : Str),
      p ∈ editFilter files req ↔
        ∃ c, (p, c) ∈ files ∧
          ∀ tg ∈ req, tg ∈ editFileTags (pySplitlines c) [] false
  | [], req, p => by simp [editFilter]
  | (q, c0) :: rest, req, p => by
    unfold editFilter
    rw [List.mem_append, mem_editFilter rest req p]
    constructor
    · rintro (hone | ⟨c, hc, hall⟩)
      · by_cases hk : ∀ tg ∈ req, tg ∈ editFileTags (pySplitlines c0) [] false
        · rw [if_pos hk] at hone
          refine ⟨c0, ?_, hk⟩
          rw [List.mem_singleton.mp hone]
          exact List.mem_cons_self _ _
        · rw [if_neg hk] at hone
          exact absurd hone (by simp)
      · exact ⟨c, List.mem_cons_of_mem _ hc, hall⟩
    · rintro ⟨c, hc, hall⟩
      rcases List.mem_cons.mp hc with heq | hc'
      · left
        have hp : p = q := congrArg Prod.fst heq
        have hcc : c = c0 := congrArg Prod.snd heq
        rw [hcc] at hall
        rw [if_pos hall, hp]
        exact List.mem_singleton.mpr rfl
      · right
        exact ⟨c, hc', hall⟩

/-- Claim C4 (counterexample): on a document carrying its tag in the
block-list form, `pick_command`'s inlined filter drops the file while
`edit_command`'s keeps it, so the two filters are not equivalent. -/
theorem C4_filters_differ_on_block_tags :
    pickFilter [("g.md".toList, blockStyleDoc)] ["a".toList] = [] ∧
    editFilter [("g.md".toList, blockStyleDoc)] ["a".toList] = ["g.md".toList] := by
  decide

/-- Claim C4 (amended): with a nonempty required-tag list and documents
none of whose lines has a stripped form starting with `- ` (no
block-style entries), a path is kept by `pick_command`'s filter exactly
when it is kept by `edit_command`'s — `edit` listing it once and `pick`
possibly repeating it. -/
theorem C4_filters_agree_without_block_tags
    (files : List (Str × Str)) (req : List Str) (p : Str)
    (hreq : req ≠ [])
    (hnb : ∀ pc ∈ files, ∀ line ∈ pySplitlines pc.2,
      ("- ".toList).isPrefixOf (pyStrip line) = false) :
    p ∈ pickFilter files req ↔ p ∈ editFilter files req := by
  rw [mem_pickFilter, mem_editFilter]
  apply exists_congr
  intro c
  have h0 : ¬ (∀ tg ∈ req, tg ∈ ([] : List Str)) := by
    obtain ⟨t, ht⟩ := List.exists_mem_of_ne_nil req hreq
    intro hcon
    simpa using hcon t ht
  constructor
  · rintro ⟨hc, hpos⟩
    refine ⟨hc, ?_⟩
    have hp := (pickFileLoop_pos req (pySplitlines c) [] false h0).mp hpos
    rwa [fileTags_eq _ _ _ (hnb (p, c) hc)] at hp
  · rintro ⟨hc, hall⟩
    refine ⟨hc, ?_⟩
    apply (pickFileLoop_pos req (pySplitlines c) [] false h0).mpr
    rwa [fileTags_eq _ _ _ (hnb (p, c) hc)]

/-- Witness for the amended C4 at a concrete bracket-style file. -/
theorem C4_filters_agree_without_block_tags_witness :
    (["a".toList] ≠ ([] : List Str)) ∧
    (∀ pc ∈ [("f.md".toList, bracketStyleDoc)], ∀ line ∈ pySplitlines pc.2,
      ("- ".toList).isPrefixOf (pyStrip line) = false) ∧
    ("f.md".toList ∈ pickFilter [("f.md".toList, bracketStyleDoc)] ["a".toList] ↔
      "f.md".toList ∈ editFilter [("f.md".toList, bracketStyleDoc)] ["a".toList]) :=
  ⟨by decide, by decide,
    C4_filters_agree_without_block_tags _ _ _ (by decide) (by decide)⟩

/-- Witness for the amended C5 at the spec's own example string. -/
theorem C5_sanitize_idempotent_on_allowed_witness :
    ("test-prompt".toList.all allowedChar = true) ∧
    "test-prompt".toList.length ≤ 100 ∧
    sanitize_filename (sanitize_filename "test-prompt".toList) =
      sanitize_filename "test-prompt".toList :=
  ⟨by decide, by decide,
    C5_sanitize_idempotent_on_allowed _ (by decide) (by decide)⟩

end Promptkeep
